import Mathlib

/-!
Verification of the toy optimistic-rollup driver (`optimistic_rollup.py`).

The driver defines a transaction codec (`Transaction.serialize`, an ABI
encoding of a `(string, uint256)` pair), a minimal VM
(`SimpleVM.apply_transaction`, a single unbounded integer state), a
32-byte big-endian state-root encoding (`bytes32`), and an interactive
bisection loop that repeatedly halves the disputed transaction segment.
This file gives a shallow embedding of those pieces and proves or refutes
the specification claims about them.
-/

namespace Rollup

/-- A transaction, mirroring the Python `Transaction` class: a string
operation tag (`tx_type`, expected to be "add" or "multiply") and an
integer operand (`value`). Python integers are unbounded nonnegative in
this driver, so the operand is a `Nat`. -/
structure Transaction where
  tx_type : String
  value : Nat
deriving DecidableEq, Repr

/-- `SimpleVM.apply_transaction`: if the tag is "add" the state becomes
`state + value`; if "multiply" it becomes `state * value`; any other tag
falls through both branches and leaves the state unchanged. Python
performs unbounded integer arithmetic here: there is no reduction modulo
2^256. -/
def apply_transaction (s : Nat) (t : Transaction) : Nat :=
  if t.tx_type = "add" then s + t.value
  else if t.tx_type = "multiply" then s * t.value
  else s

/-- The driver's `for tx in transactions: vm.apply_transaction(tx)` loop:
sequential application of a transaction list to a starting state. -/
def applyAll (txs : List Transaction) (s : Nat) : Nat :=
  txs.foldl apply_transaction s

/-- Big-endian base-256 digits of `v`, exactly `k` bytes, most significant
first (the byte list produced by Python's `v.to_bytes(k, byteorder='big')`
when `v < 256 ^ k`). -/
def natToBytesBE : Nat → Nat → List Nat
  | 0, _ => []
  | k + 1, v => natToBytesBE k (v / 256) ++ [v % 256]

/-- The driver's `bytes32` helper, `value.to_bytes(32, byteorder='big')`.
Python raises `OverflowError` when the value does not fit in 32 bytes, so
the embedding is `Option`-valued: `none` is the raised error. -/
def bytes32 (v : Nat) : Option (List Nat) :=
  if v < 2 ^ 256 then some (natToBytesBE 32 v) else none

/-- `SimpleVM.get_state_root`: the 32-byte root of the current scalar
state, via `bytes32`. -/
def get_state_root (s : Nat) : Option (List Nat) :=
  bytes32 s

/-- Big-endian interpretation of a byte list as a natural number
(`int.from_bytes(bs, byteorder='big')`). -/
def bytesToNatBE (bs : List Nat) : Nat :=
  bs.foldl (fun acc b => acc * 256 + b) 0

/-- Byte sequence of a tag string. The tags used on the wire ("add",
"multiply") are ASCII identifiers, for which the UTF-8 bytes used by the
ABI coder are exactly the character code points. -/
def strBytes (s : String) : List Nat :=
  s.data.map Char.toNat

/-- Length of a byte string padded up to the next multiple of 32, as the
ABI layout requires for the tail of a dynamic `string` value. -/
def pad32 (n : Nat) : Nat :=
  ((n + 31) / 32) * 32

/-- A byte string right-padded with zero bytes to a multiple of 32. -/
def zeroPad (bs : List Nat) : List Nat :=
  bs ++ List.replicate (pad32 bs.length - bs.length) 0

/-- `w3.codec.encode_abi(['string', 'uint256'], [tag, v])`: the standard
ABI tuple layout for a dynamic `string` followed by a `uint256` — a
32-byte head word holding the offset (64) of the string tail, the 32-byte
big-endian operand, then the string tail: its 32-byte length word followed
by the tag bytes zero-padded to a multiple of 32. -/
def encodeAbiStringUint256 (tag : String) (v : Nat) : List Nat :=
  natToBytesBE 32 64 ++ natToBytesBE 32 v ++
    natToBytesBE 32 (strBytes tag).length ++ zeroPad (strBytes tag)

/-- `Transaction.serialize`: ABI-encode `(tx_type, value)`. The ABI coder
validates the `uint256` range and raises for an out-of-range operand
(modelled as `none`); the tag string is encoded as-is, with no check that
it is a recognized kind. -/
def serialize (t : Transaction) : Option (List Nat) :=
  if t.value < 2 ^ 256 then some (encodeAbiStringUint256 t.tx_type t.value) else none

/-- Modelled from the spec: the repository contains no decoder (only
`Transaction.serialize`); the spec defines `decode(bytes) -> Transaction`
as the inverse of the ABI wire format `(operationTag: string, operand:
uint256 big-endian)`, failing with `MalformedInput` (here `none`) on
truncated or oversized buffers. The checks mirror the layout produced by
`encodeAbiStringUint256`: offset word 64, exact total length, in-range
declared tag length, and zero padding after the tag bytes. -/
def decode (bs : List Nat) : Option Transaction :=
  let off := bytesToNatBE (bs.take 32)
  let v := bytesToNatBE ((bs.drop 32).take 32)
  let len := bytesToNatBE ((bs.drop 64).take 32)
  let tagBytes := (bs.drop 96).take len
  if off = 64 ∧ bs.length = 96 + pad32 len ∧ tagBytes.length = len ∧
      (bs.drop (96 + len)).all (fun b => b == 0) = true then
    some ⟨String.mk (tagBytes.map Char.ofNat), v⟩
  else none

/-- The driver's concrete transaction batch:
`[Transaction('add', 10), Transaction('multiply', 2), Transaction('add', 5)]`. -/
def transactions : List Transaction :=
  [⟨"add", 10⟩, ⟨"multiply", 2⟩, ⟨"add", 5⟩]

/-- One bisect/select round pair as performed by the driver: the segment
`[segStart, segEnd)` current when the round begins, the midpoint the
defender submits to `bisectChallenge`, and the mid state root it computes
by replaying `transactions[:mid]` on a fresh VM. -/
structure Round where
  segStart : Nat
  segEnd : Nat
  mid : Nat
  midRoot : Option (List Nat)
deriving DecidableEq, Repr

/-- The root the defender computes for a midpoint: a fresh `SimpleVM`
(state 0) run over `transactions[:m]`, then `bytes32` of its state. -/
def midStateRoot (txs : List Transaction) (m : Nat) : Option (List Nat) :=
  bytes32 (applyAll (txs.take m) 0)

/-- The driver's `while current_end - current_start > 1` loop. Each
iteration bisects at `mid = (current_start + current_end) // 2`, replays
`transactions[:mid]` for the mid root, has the challenger select the left
half, and continues with `current_end = mid`. `current_start` is assigned
0 before the loop and never reassigned, so it is threaded unchanged. -/
def bisectionRounds (txs : List Transaction) (cs ce : Nat) : List Round :=
  if h : ce - cs > 1 then
    ⟨cs, ce, (cs + ce) / 2, midStateRoot txs ((cs + ce) / 2)⟩ ::
      bisectionRounds txs cs ((cs + ce) / 2)
  else []
termination_by ce - cs
decreasing_by
  simp_wf
  omega

/-- All bisect/select round pairs the driver performs: the explicit first
round (midpoint `len(transactions) // 2` over the whole block, challenger
selects `[0, mid_index)`), followed by the `while` loop on the segment
`[0, mid_index)`. -/
def driverRounds (txs : List Transaction) : List Round :=
  ⟨0, txs.length, txs.length / 2, midStateRoot txs (txs.length / 2)⟩ ::
    bisectionRounds txs 0 (txs.length / 2)

/-- The disputed segment left when the driver's loop exits (the loop stops
as soon as `current_end - current_start ≤ 1`). -/
def finalSegment (cs ce : Nat) : Nat × Nat :=
  if h : ce - cs > 1 then finalSegment cs ((cs + ce) / 2) else (cs, ce)
termination_by ce - cs
decreasing_by
  simp_wf
  omega

/-! ### Supporting lemmas -/

theorem natToBytesBE_length (k v : Nat) : (natToBytesBE k v).length = k := by
  induction k generalizing v with
  | zero => rfl
  | succ k ih => simp [natToBytesBE, ih]

theorem natToBytesBE_lt (k v : Nat) : ∀ b ∈ natToBytesBE k v, b < 256 := by
  induction k generalizing v with
  | zero => simp [natToBytesBE]
  | succ k ih =>
    intro b hb
    simp only [natToBytesBE, List.mem_append, List.mem_singleton] at hb
    rcases hb with hb | rfl
    · exact ih _ b hb
    · exact Nat.mod_lt _ (by norm_num)

theorem bytesToNatBE_append (l₁ l₂ : List Nat) :
    bytesToNatBE (l₁ ++ l₂) =
      l₂.foldl (fun acc b => acc * 256 + b) (bytesToNatBE l₁) := by
  simp [bytesToNatBE, List.foldl_append]

theorem bytesToNatBE_natToBytesBE (k v : Nat) :
    bytesToNatBE (natToBytesBE k v) = v % 256 ^ k := by
  induction k generalizing v with
  | zero => simp [natToBytesBE, bytesToNatBE, Nat.mod_one]
  | succ k ih =>
    have h : bytesToNatBE (natToBytesBE k (v / 256) ++ [v % 256]) =
        bytesToNatBE (natToBytesBE k (v / 256)) * 256 + v % 256 := by
      simp [bytesToNatBE_append, bytesToNatBE]
    have hdecomp : v % 256 ^ (k + 1) = (v / 256 % 256 ^ k) * 256 + v % 256 := by
      rw [pow_succ', Nat.mod_mul]
      ring
    simp only [natToBytesBE, h, ih, hdecomp]

theorem two_pow_256_eq : (2 : Nat) ^ 256 = 256 ^ 32 := by
  norm_num

theorem bytesToNatBE_natToBytesBE_32 (v : Nat) (hv : v < 2 ^ 256) :
    bytesToNatBE (natToBytesBE 32 v) = v := by
  rw [bytesToNatBE_natToBytesBE, Nat.mod_eq_of_lt]
  rw [← two_pow_256_eq]
  exact hv

theorem pad32_ge (n : Nat) : n ≤ pad32 n := by
  unfold pad32
  omega

theorem zeroPad_length (bs : List Nat) : (zeroPad bs).length = pad32 bs.length := by
  have := pad32_ge bs.length
  simp [zeroPad]
  omega

theorem take_append_of_length (a b : List Nat) (n : Nat) (h : a.length = n) :
    (a ++ b).take n = a := by
  subst h
  simp

theorem drop_append_of_length (a b : List Nat) (n : Nat) (h : a.length = n) :
    (a ++ b).drop n = b := by
  subst h
  simp

theorem strBytes_map_ofNat (tag : String) :
    (strBytes tag).map Char.ofNat = tag.data := by
  simp only [strBytes, List.map_map]
  have h : (Char.ofNat ∘ Char.toNat) = id := by
    funext c
    exact Char.ofNat_toNat c
  rw [h, List.map_id]

theorem decode_append (A V C T : List Nat) (tag : String) (v : Nat)
    (hA : A.length = 32) (hV : V.length = 32) (hC : C.length = 32)
    (hAval : bytesToNatBE A = 64)
    (hVval : bytesToNatBE V = v)
    (hCval : bytesToNatBE C = (strBytes tag).length)
    (hT : T = zeroPad (strBytes tag)) :
    decode (A ++ (V ++ (C ++ T))) = some ⟨tag, v⟩ := by
  subst hT
  have h1 : (A ++ (V ++ (C ++ zeroPad (strBytes tag)))).take 32 = A :=
    take_append_of_length _ _ _ hA
  have h2 : (A ++ (V ++ (C ++ zeroPad (strBytes tag)))).drop 32 =
      V ++ (C ++ zeroPad (strBytes tag)) :=
    drop_append_of_length _ _ _ hA
  have h3 : (V ++ (C ++ zeroPad (strBytes tag))).take 32 = V :=
    take_append_of_length _ _ _ hV
  have h4 : (A ++ (V ++ (C ++ zeroPad (strBytes tag)))).drop 64 =
      C ++ zeroPad (strBytes tag) := by
    rw [show (64 : Nat) = 32 + 32 from rfl, ← List.drop_drop, h2,
      drop_append_of_length _ _ _ hV]
  have h5 : (C ++ zeroPad (strBytes tag)).take 32 = C :=
    take_append_of_length _ _ _ hC
  have h6 : (A ++ (V ++ (C ++ zeroPad (strBytes tag)))).drop 96 =
      zeroPad (strBytes tag) := by
    rw [show (96 : Nat) = 64 + 32 from rfl, ← List.drop_drop, h4,
      drop_append_of_length _ _ _ hC]
  have h7 : (zeroPad (strBytes tag)).take (strBytes tag).length = strBytes tag :=
    take_append_of_length _ _ _ rfl
  have h8 : (A ++ (V ++ (C ++ zeroPad (strBytes tag)))).drop
      (96 + (strBytes tag).length) =
      List.replicate (pad32 (strBytes tag).length - (strBytes tag).length) 0 := by
    rw [← List.drop_drop, h6]
    exact drop_append_of_length _ _ _ rfl
  have hlen : (A ++ (V ++ (C ++ zeroPad (strBytes tag)))).length =
      96 + pad32 (strBytes tag).length := by
    simp [List.length_append, hA, hV, hC, zeroPad_length]
    omega
  simp only [decode, h1, h2, h3, h4, h5, h6, hAval, hVval, hCval, h7, h8, hlen,
    strBytes_map_ofNat]
  simp [List.all_eq_true, List.eq_of_mem_replicate]

theorem decode_encode (tag : String) (v : Nat) (hv : v < 2 ^ 256)
    (hL : (strBytes tag).length < 2 ^ 256) :
    decode (encodeAbiStringUint256 tag v) = some ⟨tag, v⟩ := by
  have hE : encodeAbiStringUint256 tag v =
      natToBytesBE 32 64 ++ (natToBytesBE 32 v ++
        (natToBytesBE 32 (strBytes tag).length ++ zeroPad (strBytes tag))) := by
    simp [encodeAbiStringUint256, List.append_assoc]
  rw [hE]
  exact decode_append _ _ _ _ tag v (natToBytesBE_length _ _) (natToBytesBE_length _ _)
    (natToBytesBE_length _ _) (by rw [bytesToNatBE_natToBytesBE]; norm_num)
    (bytesToNatBE_natToBytesBE_32 v hv) (bytesToNatBE_natToBytesBE_32 _ hL) rfl

theorem apply_transaction_eq_add (s : Nat) (t : Transaction) (h : t.tx_type = "add") :
    apply_transaction s t = s + t.value := by
  unfold apply_transaction
  rw [h, if_pos rfl]

theorem apply_transaction_eq_mul (s : Nat) (t : Transaction) (h : t.tx_type = "multiply") :
    apply_transaction s t = s * t.value := by
  unfold apply_transaction
  rw [h, if_neg (by decide), if_pos rfl]

theorem apply_transaction_eq_other (s : Nat) (t : Transaction)
    (h1 : t.tx_type ≠ "add") (h2 : t.tx_type ≠ "multiply") :
    apply_transaction s t = s := by
  unfold apply_transaction
  rw [if_neg h1, if_neg h2]

theorem bisectionRounds_sound (txs : List Transaction) :
    ∀ ce cs, ∀ r ∈ bisectionRounds txs cs ce,
      1 < r.segEnd - r.segStart ∧
      r.mid = r.segStart + (r.segEnd - r.segStart) / 2 ∧
      r.segStart < r.mid ∧ r.mid < r.segEnd ∧
      r.midRoot = midStateRoot txs r.mid := by
  intro ce
  induction ce using Nat.strong_induction_on with
  | _ ce ih =>
    intro cs r hr
    rw [bisectionRounds] at hr
    by_cases h : ce - cs > 1
    · rw [dif_pos h] at hr
      rcases List.mem_cons.mp hr with rfl | hr2
      · exact ⟨by dsimp only; omega, by dsimp only; omega,
          by dsimp only; omega, by dsimp only; omega, rfl⟩
      · exact ih ((cs + ce) / 2) (by omega) cs r hr2
    · rw [dif_neg h] at hr
      exact absurd hr (List.not_mem_nil r)

theorem bisectionRounds_length_from_zero (txs : List Transaction) :
    ∀ e, 1 ≤ e → (bisectionRounds txs 0 e).length = Nat.log 2 e := by
  intro e
  induction e using Nat.strong_induction_on with
  | _ e ih =>
    intro he
    rw [bisectionRounds]
    by_cases h : e - 0 > 1
    · rw [dif_pos h]
      have h2 : (0 + e) / 2 = e / 2 := by omega
      simp only [List.length_cons, h2]
      rw [ih (e / 2) (by omega) (by omega)]
      rw [Nat.log_of_one_lt_of_le one_lt_two (show 2 ≤ e by omega)]
    · rw [dif_neg h]
      have he1 : e = 1 := by omega
      subst he1
      simp [Nat.log_one_right]

theorem finalSegment_from_zero : ∀ e, 1 ≤ e → finalSegment 0 e = (0, 1) := by
  intro e
  induction e using Nat.strong_induction_on with
  | _ e ih =>
    intro he
    rw [finalSegment]
    by_cases h : e - 0 > 1
    · rw [dif_pos h]
      have h2 : (0 + e) / 2 = e / 2 := by omega
      rw [h2]
      exact ih (e / 2) (by omega) (by omega)
    · rw [dif_neg h]
      have he1 : e = 1 := by omega
      subst he1
      rfl

/-! ### Claim theorems -/

/-- C1 (counterexample): the claim that `apply_transaction` reduces its
result modulo 2^256 fails: at state `2^256 - 1`, applying `Add(1)` leaves
state `2^256`, not `(2^256 - 1 + 1) mod 2^256 = 0`. -/
theorem apply_mod_counterexample :
    apply_transaction (2 ^ 256 - 1) ⟨"add", 1⟩ ≠ (2 ^ 256 - 1 + 1) % 2 ^ 256 := by
  decide

/-- C1 (amended): applying a transaction yields `s + operand` for `Add`
and `s * operand` for `Multiply`, with no modular reduction; the result
coincides with the mod-2^256 value exactly when it is below 2^256. -/
theorem apply_transaction_unreduced (s : Nat) (t : Transaction)
    (hk : t.tx_type = "add" ∨ t.tx_type = "multiply") :
    apply_transaction s t = (if t.tx_type = "add" then s + t.value else s * t.value) ∧
    (apply_transaction s t < 2 ^ 256 →
      apply_transaction s t =
        (if t.tx_type = "add" then s + t.value else s * t.value) % 2 ^ 256) := by
  rcases hk with h | h
  · rw [apply_transaction_eq_add s t h, h, if_pos rfl]
    exact ⟨rfl, fun h2 => (Nat.mod_eq_of_lt h2).symm⟩
  · rw [apply_transaction_eq_mul s t h, h, if_neg (by decide)]
    exact ⟨rfl, fun h2 => (Nat.mod_eq_of_lt h2).symm⟩

/-- C1 (witness for the amended theorem): concrete instance at state 3 and
transaction `Add(4)`. -/
theorem apply_transaction_unreduced_witness :
    apply_transaction 3 ⟨"add", 4⟩ =
      (if ("add" : String) = "add" then 3 + 4 else 3 * 4) ∧
    (apply_transaction 3 ⟨"add", 4⟩ < 2 ^ 256 →
      apply_transaction 3 ⟨"add", 4⟩ =
        (if ("add" : String) = "add" then 3 + 4 else 3 * 4) % 2 ^ 256) :=
  apply_transaction_unreduced 3 ⟨"add", 4⟩ (Or.inl rfl)

/-- C2: the driver's batch `[Add(10), Multiply(2), Add(5)]` run from state
0 passes through states 10, 20, 25, and the final state root is the value
25 encoded as 32 bytes (31 zero bytes then `0x19`). -/
theorem scenario_states_and_root :
    List.scanl apply_transaction 0 transactions = [0, 10, 20, 25] ∧
    bytes32 (applyAll transactions 0) = some (List.replicate 31 0 ++ [25]) := by
  constructor
  · decide
  · decide

/-- C3: for every state below 2^256, `get_state_root` succeeds and returns
exactly the 32-byte big-endian, zero-padded encoding of the state: 32
bytes, each below 256, whose most-significant-first base-256 value is the
state itself. -/
theorem state_root_bigendian (s : Nat) (hs : s < 2 ^ 256) :
    ∃ bs, get_state_root s = some bs ∧ bs.length = 32 ∧
      (∀ b ∈ bs, b < 256) ∧ bytesToNatBE bs = s := by
  refine ⟨natToBytesBE 32 s, ?_, natToBytesBE_length 32 s,
    natToBytesBE_lt 32 s, bytesToNatBE_natToBytesBE_32 s hs⟩
  unfold get_state_root bytes32
  rw [if_pos hs]

/-- C3 (witness): concrete instance at state 25. -/
theorem state_root_bigendian_witness :
    ∃ bs, get_state_root 25 = some bs ∧ bs.length = 32 ∧
      (∀ b ∈ bs, b < 256) ∧ bytesToNatBE bs = 25 :=
  state_root_bigendian 25 (by norm_num)

/-- C4: for every valid transaction (kind "add" or "multiply", operand in
the `uint256` range), serializing succeeds and decoding the produced bytes
returns the original transaction: `decode (encode t) = t`. -/
theorem serialize_decode_roundtrip (t : Transaction)
    (hk : t.tx_type = "add" ∨ t.tx_type = "multiply") (hv : t.value < 2 ^ 256) :
    ∃ bs, serialize t = some bs ∧ decode bs = some t := by
  refine ⟨encodeAbiStringUint256 t.tx_type t.value, by unfold serialize; rw [if_pos hv], ?_⟩
  have hL : (strBytes t.tx_type).length < 2 ^ 256 := by
    rcases hk with h | h <;> rw [h] <;> decide
  exact decode_encode t.tx_type t.value hv hL

/-- C4 (witness): concrete round trip for `Add(10)`. -/
theorem serialize_decode_roundtrip_witness :
    ∃ bs, serialize ⟨"add", 10⟩ = some bs ∧ decode bs = some ⟨"add", 10⟩ :=
  serialize_decode_roundtrip ⟨"add", 10⟩ (Or.inl rfl) (by decide)

/-- C7: for every state and every well-formed transaction (tag "add" or
"multiply"), `apply_transaction` is total — it returns the updated scalar
state and nothing else, with no failure path; growth past 2^256 is just a
larger state, not an error. -/
theorem apply_transaction_total (s : Nat) (t : Transaction)
    (hk : t.tx_type = "add" ∨ t.tx_type = "multiply") :
    (t.tx_type = "add" → apply_transaction s t = s + t.value) ∧
    (t.tx_type = "multiply" → apply_transaction s t = s * t.value) :=
  ⟨fun h => apply_transaction_eq_add s t h, fun h => apply_transaction_eq_mul s t h⟩

/-- C7 (witness): concrete instance at state `2^256 - 1` and `Add(1)`,
where the update succeeds and overflows past 2^256. -/
theorem apply_transaction_total_witness :
    ((("add" : String) = "add" →
      apply_transaction (2 ^ 256 - 1) ⟨"add", 1⟩ = 2 ^ 256 - 1 + 1) ∧
     (("add" : String) = "multiply" →
      apply_transaction (2 ^ 256 - 1) ⟨"add", 1⟩ = (2 ^ 256 - 1) * 1)) :=
  apply_transaction_total (2 ^ 256 - 1) ⟨"add", 1⟩ (Or.inl rfl)

/-- C8 (counterexample): `serialize` does not fail on an unrecognized
operation tag: it happily produces bytes for tag "bogus". -/
theorem serialize_unrecognized_counterexample :
    (serialize ⟨"bogus", 0⟩).isSome = true := by
  decide

/-- C8 (amended): `serialize` performs no kind check at all: for any
transaction whose operand is in the `uint256` range, including every
unrecognized tag, it returns the ABI encoding of the tag and operand
instead of failing. -/
theorem serialize_no_kind_check (t : Transaction)
    (h1 : t.tx_type ≠ "add") (h2 : t.tx_type ≠ "multiply") (hv : t.value < 2 ^ 256) :
    serialize t = some (encodeAbiStringUint256 t.tx_type t.value) := by
  unfold serialize
  rw [if_pos hv]

/-- C8 (witness for the amended theorem): concrete unrecognized tag. -/
theorem serialize_no_kind_check_witness :
    serialize ⟨"bogus", 7⟩ = some (encodeAbiStringUint256 "bogus" 7) :=
  serialize_no_kind_check ⟨"bogus", 7⟩ (by decide) (by decide) (by decide)

/-- C9: a transaction whose tag is neither "add" nor "multiply" is a
silent no-op: `apply_transaction` raises nothing and leaves the state
exactly unchanged. -/
theorem apply_unknown_noop (s : Nat) (t : Transaction)
    (h1 : t.tx_type ≠ "add") (h2 : t.tx_type ≠ "multiply") :
    apply_transaction s t = s :=
  apply_transaction_eq_other s t h1 h2

/-- C9 (witness): concrete instance with tag "ignore". -/
theorem apply_unknown_noop_witness :
    apply_transaction 42 ⟨"ignore", 7⟩ = 42 :=
  apply_unknown_noop 42 ⟨"ignore", 7⟩ (by decide) (by decide)

/-- C5: in every bisect/select round the driver performs over a segment
`[start, end)` with `end - start > 1`, the submitted midpoint equals
`start + (end - start) / 2` (floor division), lies strictly between
`start` and `end`, and the submitted mid root is the root of the state
obtained by applying `transactions[0:mid]` from state 0. -/
theorem bisection_midpoint_sound (txs : List Transaction) (r : Round)
    (hr : r ∈ driverRounds txs) (hlen : 1 < r.segEnd - r.segStart) :
    r.mid = r.segStart + (r.segEnd - r.segStart) / 2 ∧
    r.segStart < r.mid ∧ r.mid < r.segEnd ∧
    r.midRoot = bytes32 (applyAll (txs.take r.mid) 0) := by
  rcases List.mem_cons.mp hr with rfl | h2
  · exact ⟨by dsimp only at hlen ⊢; omega, by dsimp only at hlen ⊢; omega,
      by dsimp only at hlen ⊢; omega, rfl⟩
  · obtain ⟨-, hm, hs, he, hroot⟩ := bisectionRounds_sound txs _ 0 r h2
    exact ⟨hm, hs, he, hroot⟩

/-- C5 (witness): the first round of the driver's concrete run bisects
`[0, 3)` at midpoint 1 with the root of `transactions[0:1]`. -/
theorem bisection_midpoint_sound_witness :
    (1 : Nat) = 0 + (3 - 0) / 2 ∧ (0 : Nat) < 1 ∧ (1 : Nat) < 3 ∧
    midStateRoot transactions 1 = bytes32 (applyAll (transactions.take 1) 0) :=
  bisection_midpoint_sound transactions ⟨0, 3, 1, midStateRoot transactions 1⟩
    (List.mem_cons_self _ _) (by decide)

/-- C6 (counterexample): the claim that the single-transaction terminal
round is reached in exactly `⌈log2 N⌉` round pairs fails on the driver's
own three-transaction block: the terminal segment `[0, 1)` is reached
after one bisect/select round pair, while `⌈log2 3⌉ = 2`. -/
theorem bisection_count_counterexample :
    finalSegment 0 (transactions.length / 2) = (0, 1) ∧
    (driverRounds transactions).length = 1 ∧
    Nat.clog 2 transactions.length = 2 ∧
    (driverRounds transactions).length ≠ Nat.clog 2 transactions.length := by
  have hfin : finalSegment 0 (transactions.length / 2) = (0, 1) := by
    show finalSegment 0 1 = (0, 1)
    rw [finalSegment]
    norm_num
  have hcount : (driverRounds transactions).length = 1 := by
    simp only [driverRounds, List.length_cons]
    show (bisectionRounds transactions 0 1).length + 1 = 1
    rw [bisectionRounds]
    norm_num
  have hclog : Nat.clog 2 transactions.length = 2 := by
    show Nat.clog 2 3 = 2
    rw [Nat.clog_of_two_le one_lt_two (by norm_num)]
    norm_num
    rw [Nat.clog_of_two_le one_lt_two (by norm_num)]
    norm_num [Nat.clog_one_right]
  exact ⟨hfin, hcount, hclog, by omega⟩

/-- C6 (amended): for a block of `N ≥ 2` transactions, every round pair
strictly shrinks the disputed segment (the challenger keeps the left
half `[start, mid)`), the loop exits on the single-transaction segment
`[0, 1)`, and the number of bisect/select round pairs is exactly
`⌊log2 N⌋`. -/
theorem bisection_rounds_floor_log2 (txs : List Transaction) (h : 2 ≤ txs.length) :
    (∀ r ∈ driverRounds txs, r.mid - r.segStart < r.segEnd - r.segStart) ∧
    (driverRounds txs).length = Nat.log 2 txs.length ∧
    finalSegment 0 (txs.length / 2) = (0, 1) := by
  refine ⟨?_, ?_, ?_⟩
  · intro r hr
    rcases List.mem_cons.mp hr with rfl | h2
    · dsimp only
      omega
    · obtain ⟨hgt, -, hs, he, -⟩ := bisectionRounds_sound txs _ 0 r h2
      omega
  · simp only [driverRounds, List.length_cons]
    rw [bisectionRounds_length_from_zero txs (txs.length / 2) (by omega)]
    rw [Nat.log_of_one_lt_of_le one_lt_two (show 2 ≤ txs.length from h)]
  · exact finalSegment_from_zero (txs.length / 2) (by omega)

/-- C6 (witness for the amended theorem): the driver's three-transaction
block takes exactly `⌊log2 3⌋ = 1` round pair and ends on `[0, 1)`. -/
theorem bisection_rounds_floor_log2_witness :
    (∀ r ∈ driverRounds transactions, r.mid - r.segStart < r.segEnd - r.segStart) ∧
    (driverRounds transactions).length = Nat.log 2 transactions.length ∧
    finalSegment 0 (transactions.length / 2) = (0, 1) :=
  bisection_rounds_floor_log2 transactions (by decide)

/-- C10: `get_state_root` succeeds exactly on states below 2^256, and
because `apply_transaction` never reduces modulo 2^256, a batch of
well-formed transactions (valid kinds, `uint256` operands) drives the
state from 0 to a value at or above 2^256 on which `get_state_root`
fails. -/
theorem state_root_partial_and_reachable :
    (∀ s : Nat, (get_state_root s).isSome ↔ s < 2 ^ 256) ∧
    (∃ txs : List Transaction,
      (∀ t ∈ txs, (t.tx_type = "add" ∨ t.tx_type = "multiply") ∧ t.value < 2 ^ 256) ∧
      2 ^ 256 ≤ applyAll txs 0 ∧ get_state_root (applyAll txs 0) = none) := by
  constructor
  · intro s
    by_cases h : s < 2 ^ 256 <;> simp [get_state_root, bytes32, h]
  · refine ⟨[⟨"add", 2 ^ 256 - 1⟩, ⟨"add", 1⟩], ?_, ?_, ?_⟩ <;> decide

end Rollup
